import Mathlib

/-!
Verification development for the Monero transaction-signing engine of
trezor-core (`src/apps/monero`): a shallow embedding of the transaction
builder (`protocol/tsx_sign_builder.py`), the stage dispatcher
(`protocol/tsx_sign.py`) and the canonical serializer
(`xmr/serialize/xmrserialize.py`, `xmr/serialize/xmrtypes.py`), together
with theorems settling the specification claims about them.

Modelling conventions:
* byte strings are `List Nat` (entries < 256 where it matters);
* Keccak-256 is an arbitrary function parameter `K : Bytes → Bytes`
  (the primitives live outside the embedded sources); `keccak_2hash` and
  `compute_hmac` are built from it exactly as the crypto adapter does;
* Ed25519 scalars are `ZMod lEd` (arithmetic mod the group order ℓ);
* group elements are a free term model `Point` (`base`, `decodePt`,
  `smul`), enough to state which expression the code computes;
* Python exceptions become `Except TxError`; in-place mutation becomes
  explicit state passing on `BuilderState`.
-/

namespace TrezorXmr

/-- Byte strings. -/
abbrev Bytes := List Nat

/-- ASCII bytes of a literal tag string. -/
def ascii (s : String) : Bytes := s.toList.map Char.toNat

/-- The Ed25519 group order ℓ = 2^252 + 27742317777372353535851937790883648493. -/
def lEd : Nat := 7237005577332262213973186563042994240857116359379907606001950938285454250989

/-- Scalars mod ℓ, as used by `crypto.sc_add` / `sc_sub` / `sc_eq`. -/
abbrev Scalar := ZMod lEd

/-- `crypto.sc_eq` — scalar equality test (returns a boolean truth value). -/
def sc_eq (a b : Scalar) : Bool := decide (a = b)

/-- Worker for `dump_uvarint` with an explicit fuel argument (the
recursion depth is bounded by the value, so fuel `n` always suffices);
structural recursion keeps it kernel-evaluable. -/
def dump_uvarint_fuel : Nat → Nat → Bytes
  | 0, n => [n]
  | fuel + 1, n =>
    if n < 128 then [n] else (n % 128 + 128) :: dump_uvarint_fuel fuel (n / 128)

/-- Modelled from the spec: unsigned varint, little-endian base-128,
7 bits per byte, high-bit continuation (`dump_uvarint` /
`dump_uvarint_b` of `xmr/serialize/int_serialize.py`, which is not under
`src/`; only its callers are).  Satisfies the recurrence
`dump_uvarint n = if n < 128 then [n] else (n % 128 + 128) :: dump_uvarint (n / 128)`
(theorem `dump_uvarint_eq`). -/
def dump_uvarint (n : Nat) : Bytes := dump_uvarint_fuel n n

/-- Modelled from the spec: varint decoding by the continuation-bit rule
(`load_uvarint` of the `protobuf` module, not under `src/`): each byte
contributes its low 7 bits, little-endian first; a byte with the high
bit clear terminates.  No minimality check is performed. -/
def load_uvarint : Bytes → Option (Nat × Bytes)
  | [] => none
  | b :: rest =>
    if b % 256 < 128 then some (b % 256, rest)
    else
      match load_uvarint rest with
      | none => none
      | some (v, rest2) => some (b % 256 % 128 + 128 * v, rest2)

/-! ## Crypto adapter (primitives are parameters, construction is the code's) -/

/-- `crypto.keccak_2hash(x) = keccak256(keccak256(x))`, with Keccak-256
itself a parameter `K`. -/
def keccak_2hash (K : Bytes → Bytes) (x : Bytes) : Bytes := K (K x)

/-- `crypto.compute_hmac(key, msg) = keccak_2hash(key ‖ msg)`. -/
def compute_hmac (K : Bytes → Bytes) (key msg : Bytes) : Bytes :=
  keccak_2hash K (key ++ msg)

/-- Modelled from the spec: `common.ct_equal` (not under `src/`) is a
constant-time byte-string equality; its functional result is plain
equality (the timing aspect is outside the embedding). -/
def ct_equal (a b : Bytes) : Bool := a == b

/-! ## Key schedule (`compute_sec_keys` and the `hmac_key_*`/`enc_key_*`
family of `tsx_sign_builder.py`) -/

/-- Result of `compute_sec_keys`. -/
structure SecKeys where
  key_master : Bytes
  key_hmac : Bytes
  key_enc : Bytes
  deriving DecidableEq, Repr

/-- `compute_sec_keys`: `key_master = keccak_2hash(digest ‖ enc(random))`
where `digest` is the Keccak digest of (serialized TsxData ‖ enc(r) ‖
varint tx_counter) and `rand_enc` the 32 fresh random bytes; then
`key_hmac = keccak_2hash('hmac' ‖ key_master)` and
`key_enc = keccak_2hash('enc' ‖ key_master)`. -/
def compute_sec_keys (K : Bytes → Bytes) (digest rand_enc : Bytes) : SecKeys :=
  let km := keccak_2hash K (digest ++ rand_enc)
  { key_master := km
    key_hmac := keccak_2hash K (ascii "hmac" ++ km)
    key_enc := keccak_2hash K (ascii "enc" ++ km) }

/-- `hmac_key_txin(idx)`. -/
def hmac_key_txin (K : Bytes → Bytes) (key_hmac : Bytes) (idx : Nat) : Bytes :=
  keccak_2hash K (key_hmac ++ ascii "txin" ++ dump_uvarint idx)

/-- `hmac_key_txin_comm(idx)`. -/
def hmac_key_txin_comm (K : Bytes → Bytes) (key_hmac : Bytes) (idx : Nat) : Bytes :=
  keccak_2hash K (key_hmac ++ ascii "txin-comm" ++ dump_uvarint idx)

/-- `hmac_key_txdst(idx)`. -/
def hmac_key_txdst (K : Bytes → Bytes) (key_hmac : Bytes) (idx : Nat) : Bytes :=
  keccak_2hash K (key_hmac ++ ascii "txdest" ++ dump_uvarint idx)

/-- `hmac_key_txout(idx)`. -/
def hmac_key_txout (K : Bytes → Bytes) (key_hmac : Bytes) (idx : Nat) : Bytes :=
  keccak_2hash K (key_hmac ++ ascii "txout" ++ dump_uvarint idx)

/-- `hmac_key_txout_asig(idx)`. -/
def hmac_key_txout_asig (K : Bytes → Bytes) (key_hmac : Bytes) (idx : Nat) : Bytes :=
  keccak_2hash K (key_hmac ++ ascii "txout-asig" ++ dump_uvarint idx)

/-- `enc_key_txin_alpha(idx)`. -/
def enc_key_txin_alpha (K : Bytes → Bytes) (key_enc : Bytes) (idx : Nat) : Bytes :=
  keccak_2hash K (key_enc ++ ascii "txin-alpha" ++ dump_uvarint idx)

/-- `enc_key_cout(idx=None)`: the varint suffix is appended only when
`idx` is truthy in Python, i.e. supplied and nonzero
(`dump_uvarint_b(idx) if idx else b''`). -/
def enc_key_cout (K : Bytes → Bytes) (key_enc : Bytes) (idx : Option Nat) : Bytes :=
  keccak_2hash K (key_enc ++ ascii "cout" ++
    (match idx with
     | some i => if i ≠ 0 then dump_uvarint i else []
     | none => []))

/-! ## Group elements (free term model) -/

/-- Free term model of Ed25519 group elements: just enough structure to
record which expression the engine computes (`scalarmult_base r`,
`ge_scalarmult r (decodepoint D)`, …).  Point-equality asserts of the
crypto layer (outside `src/`) are not decided in this model. -/
inductive Point where
  | base : Point
  | decodePt : Bytes → Point
  | smul : Scalar → Point → Point
  deriving DecidableEq

/-! ## Data model -/

/-- `AccountPublicAddress`, by its 32-byte encoded keys. -/
structure AccountAddr where
  spend : Bytes
  view : Bytes
  deriving DecidableEq

/-- `TxDestinationEntry` (amounts arrive as protobuf unsigned ints). -/
structure TxDestEntry where
  amount : Nat
  addr : AccountAddr
  is_subaddress : Bool
  deriving DecidableEq

/-- The slice of `TsxData` that the embedded engine reads. -/
structure TsxData where
  num_inputs : Nat
  mixin : Nat
  fee : Nat
  unlock_time : Nat
  is_multisig : Bool
  outputs : List TxDestEntry
  change_dts : Option TxDestEntry
  exp_tx_prefix_hash : Bytes
  use_tx_keys : List Bytes
  deriving DecidableEq

/-- Modelled from the spec: `classify_subaddresses`
(`apps.monero.xmr.sub.addr`, not under `src/`) counts standard versus
subaddress destinations and records a subaddress destination address
(the last one seen, left to right). -/
def classify_subaddresses : List TxDestEntry → Nat × Nat × Option AccountAddr
  | [] => (0, 0, none)
  | o :: rest =>
    let r := classify_subaddresses rest
    if o.is_subaddress then
      (r.1, r.2.1 + 1, some (match r.2.2 with | some a => a | none => o.addr))
    else
      (r.1 + 1, r.2.1, r.2.2)

/-- Errors raised while signing.  `ValueError`s are distinguished by the
check that raised them; `prefixHashMismatch` models the dedicated
`TrezorTxPrefixHashNotMatchingError` class; `indexError` models a Python
`IndexError` from an out-of-range list subscript. -/
inductive TxError where
  | tooManyInputs
  | realOutputOob
  | changeNotFound
  | invalidOutNum
  | maskSumMismatch
  | feeInvalid
  | inputsLessThanOutputs
  | hmacInvalid
  | hmacPseudoOutInvalid
  | wrongAmount
  | invalidNumInputs
  | prefixHashMismatch
  | indexError
  | serializeError
  | invalidIns
  | inconsistent1
  | inconsistent2
  | inconsistent3
  deriving DecidableEq, Repr

/-- The mutable state of `TTransactionBuilder` that the embedded stage
functions read and write.  Incremental hashers are modelled by the byte
string absorbed so far (`tx_prefix_absorbed`) and by the list of
pseudo-outs fed to the `PreMlsagHasher` (`premlsag_pseudo_outs`). -/
structure BuilderState where
  input_count : Nat
  output_count : Nat
  fee : Int
  mixin : Nat
  multi_sig : Bool
  use_simple_rct : Bool
  need_additional_txkeys : Bool
  tx_version : Nat
  unlock_time : Nat
  inp_idx : Int
  out_idx : Int
  summary_inputs_money : Int
  summary_outs_money : Int
  sumout : Scalar
  sumpouts_alphas : Scalar
  key_hmac : Bytes
  key_enc : Bytes
  r : Scalar
  r_pub : Point
  source_permutation : List Nat
  input_secrets : List Scalar
  additional_tx_public_keys : List Bytes
  exp_tx_prefix_hash : Option Bytes
  tx_extra : Bytes
  tx_prefix_absorbed : Bytes
  premlsag_pseudo_outs : List Bytes
  is_input_vins_state : Bool
  state_failed : Bool
  deriving DecidableEq

/-! ## Canonical serializer (`xmrserialize.py` / `xmrtypes.py`),
specialized to the `vin` family used by the hashers -/

/-- `TxinToKey` message value (`xmrtypes.py`): varint `amount`, varint
container `key_offsets`, 32-byte `k_image`. -/
structure TxinToKeyMsg where
  amount : Nat
  key_offsets : List Nat
  k_image : Bytes
  deriving DecidableEq

/-- The `TxInV` variant (`xmrtypes.py`): `txin_gen` (code 0xff),
`txin_to_script` (0x0, no fields), `txin_to_scripthash` (0x1, no
fields), `txin_to_key` (0x2). -/
inductive TxInV where
  | txin_gen (height : Nat)
  | txin_to_script
  | txin_to_scripthash
  | txin_to_key (v : TxinToKeyMsg)
  deriving DecidableEq

/-- The declared `VARIANT_CODE` of each `TxInV` field type. -/
def txinv_variant_code : TxInV → Nat
  | .txin_gen _ => 0xff
  | .txin_to_script => 0x0
  | .txin_to_scripthash => 0x1
  | .txin_to_key _ => 0x2

/-- `dump_blob` for a `FIX_SIZE` blob: no length prefix, and a size
mismatch raises (`Fixed size blob has not defined size`). -/
def dump_blob_fixed (size : Nat) (data : Bytes) : Option Bytes :=
  if data.length = size then some data else none

/-- `_dump_container` for a container of varints (`FIX_SIZE` false):
varint element count, then the elements. -/
def dump_uvarint_container (xs : List Nat) : Bytes :=
  dump_uvarint xs.length ++ (xs.map dump_uvarint).flatten

/-- `_dump_message` for `TxinToKey`: the fields in declared order, no
tags. -/
def dump_txin_to_key (v : TxinToKeyMsg) : Option Bytes := do
  let kimg ← dump_blob_fixed 32 v.k_image
  pure (dump_uvarint v.amount ++ dump_uvarint_container v.key_offsets ++ kimg)

/-- `_dump_message` for `TxinGen`: one varint field `height`. -/
def dump_txin_gen (height : Nat) : Bytes := dump_uvarint height

/-- The serialization of the field selected inside a `TxInV` variant
(what `_dump_variant` emits after the discriminant byte). -/
def dump_txinv_field : TxInV → Option Bytes
  | .txin_gen h => some (dump_txin_gen h)
  | .txin_to_script => some []
  | .txin_to_scripthash => some []
  | .txin_to_key v => dump_txin_to_key v

/-- `_dump_variant` for `TxInV`: `dump_uint(VARIANT_CODE, 1)` — exactly
one byte — then the selected field. -/
def dump_TxInV (v : TxInV) : Option Bytes :=
  (dump_txinv_field v).map (fun b => txinv_variant_code v :: b)

/-- `_load_container` for a container of varints: varint count then that
many varint elements. -/
def load_uvarints : Nat → Bytes → Option (List Nat × Bytes)
  | 0, b => some ([], b)
  | n + 1, b => do
    let (v, rest) ← load_uvarint b
    let (vs, rest2) ← load_uvarints n rest
    pure (v :: vs, rest2)

/-- `load_blob` for a `FIX_SIZE` blob: read exactly `size` bytes
(`EOFError` — `none` — if the source is shorter). -/
def load_blob_fixed (size : Nat) (b : Bytes) : Option (Bytes × Bytes) :=
  if size ≤ b.length then some (b.take size, b.drop size) else none

/-- `_load_message` for `TxinToKey`. -/
def load_txin_to_key (b : Bytes) : Option (TxinToKeyMsg × Bytes) := do
  let (amount, b1) ← load_uvarint b
  let (cnt, b2) ← load_uvarint b1
  let (offs, b3) ← load_uvarints cnt b2
  let (kimg, b4) ← load_blob_fixed 32 b3
  pure (⟨amount, offs, kimg⟩, b4)

/-- `_load_variant` for `TxInV`: read the 1-byte tag, match it against
the declared codes in field order, and load the matching field;
an unknown tag raises. -/
def load_TxInV (b : Bytes) : Option (TxInV × Bytes) :=
  match b with
  | [] => none
  | tag :: rest =>
    if tag % 256 = 0xff then
      (load_uvarint rest).map (fun p => (.txin_gen p.1, p.2))
    else if tag % 256 = 0x0 then some (.txin_to_script, rest)
    else if tag % 256 = 0x1 then some (.txin_to_scripthash, rest)
    else if tag % 256 = 0x2 then
      (load_txin_to_key rest).map (fun p => (.txin_to_key p.1, p.2))
    else none

/-! ## Stage 1: `init_transaction` -/

/-- `check_change`: if a change destination is set, its address must
appear among the outputs. -/
def check_change (outputs : List TxDestEntry) (change : Option TxDestEntry) :
    Except TxError Unit :=
  match change with
  | none => .ok ()
  | some c =>
    if outputs.any (fun o => o.addr = c.addr) then .ok ()
    else .error .changeNotFound

/-- `init_transaction` (flag, key-schedule and counter initialization).
Parameters supply what the engine gets from outside the embedded
sources: `K` (Keccak-256), `decInt` (`crypto.decodeint`), `r0` (the
scalar sampled by `gen_r`), `tsx_ser` (the canonical serialization of
the TsxData message followed by `enc(r) ‖ varint tx_counter`, fed to the
key-schedule digest) and `rand_enc` (the fresh 32 random bytes).
User confirmation, payment-id processing and the per-output destination
HMACs emitted at the end are elided: they do not touch the fields below
(payment-id processing only writes `tx.extra`, left empty here as for a
request without a payment id). -/
def init_transaction (K : Bytes → Bytes) (decInt : Bytes → Scalar)
    (r0 : Scalar) (tsx_ser rand_enc : Bytes) (td : TsxData) :
    Except TxError BuilderState :=
  -- gen_r, then the optional `use_tx_keys` override of `r`
  let r := match td.use_tx_keys with
           | [] => r0
           | k :: _ => decInt k
  match check_change td.outputs td.change_dts with
  | .error e => .error e
  | .ok _ =>
  -- classify_subaddresses; single-destination-subaddress rule for R
  let cls := classify_subaddresses td.outputs
  let num_std := cls.1
  let num_sub := cls.2.1
  let r_pub := if num_std = 0 ∧ num_sub = 1 then
      match cls.2.2 with
      | some a => Point.smul r (Point.decodePt a.spend)
      | none => Point.smul r Point.base
    else Point.smul r Point.base
  let keys := compute_sec_keys K (K tsx_ser) rand_enc
  .ok {
    input_count := td.num_inputs
    output_count := td.outputs.length
    fee := (td.fee : Int)
    mixin := td.mixin
    multi_sig := td.is_multisig
    use_simple_rct := td.num_inputs > 1
    need_additional_txkeys := num_sub > 0 ∧ (num_std > 0 ∨ num_sub > 1)
    tx_version := 2
    unlock_time := td.unlock_time
    inp_idx := -1
    out_idx := -1
    summary_inputs_money := 0
    summary_outs_money := 0
    sumout := 0
    sumpouts_alphas := 0
    key_hmac := keys.key_hmac
    key_enc := keys.key_enc
    r := r
    r_pub := r_pub
    source_permutation := []
    input_secrets := []
    additional_tx_public_keys := []
    exp_tx_prefix_hash :=
      if td.exp_tx_prefix_hash = [] then none else some td.exp_tx_prefix_hash
    tx_extra := []
    tx_prefix_absorbed :=
      dump_uvarint 2 ++ dump_uvarint td.unlock_time ++ dump_uvarint td.num_inputs
    premlsag_pseudo_outs := []
    is_input_vins_state := false
    state_failed := false }

/-! ## HMAC generators (`gen_hmac_vini` / `gen_hmac_vouti` /
`gen_hmac_tsxdest`): a Keccak writer absorbs the canonical
serialization of the message(s), and the digest is HMAC'ed under the
per-index subkey.  The serialized bytes are taken as a parameter
(`*_ser`); the digest is `K` of them as in `get_keccak_writer`. -/

/-- `gen_hmac_vini(src_entr, vini, idx)`. -/
def gen_hmac_vini (K : Bytes → Bytes) (key_hmac src_vini_ser : Bytes) (idx : Nat) :
    Bytes :=
  compute_hmac K (hmac_key_txin K key_hmac idx) (K src_vini_ser)

/-- `gen_hmac_vouti(dst_entr, tx_out, idx)`. -/
def gen_hmac_vouti (K : Bytes → Bytes) (key_hmac dst_txout_ser : Bytes) (idx : Nat) :
    Bytes :=
  compute_hmac K (hmac_key_txout K key_hmac idx) (K dst_txout_ser)

/-- `gen_hmac_tsxdest(dst_entr, idx)`. -/
def gen_hmac_tsxdest (K : Bytes → Bytes) (key_hmac dst_ser : Bytes) (idx : Nat) :
    Bytes :=
  compute_hmac K (hmac_key_txdst K key_hmac idx) (K dst_ser)

/-! ## Stage 2: `set_input` -/

/-- `set_input(src_entr)`.  The index, bound and `real_output` checks
and the state updates are embedded; the TState transition, the key-image
derivation and the vin/pseudo-out construction (crypto layer, outside
`src/`) are elided — they produce the response fields and `xi`, `alpha`
taken here as parameters, and cannot modify the fields below. -/
def set_input (s : BuilderState) (src_outputs_len real_output amount : Nat)
    (xi alpha : Scalar) : Except TxError BuilderState :=
  let s1 := { s with inp_idx := s.inp_idx + 1 }
  if s1.inp_idx ≥ (s1.input_count : Int) then .error .tooManyInputs
  else if real_output ≥ src_outputs_len then .error .realOutputOob
  else
    let s2 := { s1 with
      summary_inputs_money := s1.summary_inputs_money + (amount : Int)
      input_secrets := s1.input_secrets ++ [xi] }
    -- `commitment(amount)` in Simple RCT: `sumpouts_alphas += alpha`
    if s2.use_simple_rct
      then .ok { s2 with sumpouts_alphas := s2.sumpouts_alphas + alpha }
      else .ok s2

/-! ## Stage 3: `tsx_inputs_permutation` -/

/-- `tsx_inputs_permutation(permutation)` / `_tsx_inputs_permutation`:
records the host's permutation and resets `inp_idx` to −1
(`in_memory()` is always `False`, so only `input_secrets` is reordered
in place by `apply_permutation`; that value shuffle is elided). -/
def tsx_inputs_permutation (s : BuilderState) (perm : List Nat) : BuilderState :=
  { s with source_permutation := perm, inp_idx := -1, is_input_vins_state := false }

/-! ## Stage 4: `input_vini` -/

/-- `input_vini(src_entr, vini, hmac, pseudo_out, pseudo_out_hmac)`
together with `hash_vini_pseudo_out`.  `in_memory()` is `False`.  The
HMAC over (TxSourceEntry ‖ vin_i) is recomputed with the
pre-permutation index `source_permutation[inp_idx]`; on success the
serialized `vini` is absorbed into the prefix hasher, and in Simple RCT
the pseudo-out HMAC (same permuted index) gates
`PreMlsagHasher.set_pseudo_out`. -/
def input_vini (K : Bytes → Bytes) (s : BuilderState) (src_vini_ser : Bytes)
    (vini : TxInV) (hmac pseudo_out pseudo_out_hmac : Bytes) :
    Except TxError BuilderState :=
  if s.inp_idx ≥ (s.input_count : Int) then .error .tooManyInputs
  else
    let s1 := { s with inp_idx := s.inp_idx + 1, is_input_vins_state := true }
    match s1.source_permutation[s1.inp_idx.toNat]? with
    | none => .error .indexError
    | some pidx =>
      if ¬ ct_equal (gen_hmac_vini K s1.key_hmac src_vini_ser pidx) hmac then
        .error .hmacInvalid
      else
        -- hash_vini_pseudo_out: absorb the serialized vin_i, then the
        -- Simple-RCT pseudo-out HMAC check gating set_pseudo_out
        match dump_TxInV vini with
        | none => .error .serializeError
        | some viniBytes =>
          let s2 := { s1 with
            tx_prefix_absorbed := s1.tx_prefix_absorbed ++ viniBytes }
          if ¬ s2.use_simple_rct then .ok s2
          else
            match s2.source_permutation[s2.inp_idx.toNat]? with
            | none => .error .indexError
            | some pidx2 =>
              if ¬ ct_equal pseudo_out_hmac
                  (compute_hmac K (hmac_key_txin_comm K s2.key_hmac pidx2)
                    pseudo_out) then
                .error .hmacPseudoOutInvalid
              else
                .ok { s2 with premlsag_pseudo_outs :=
                  s2.premlsag_pseudo_outs ++ [pseudo_out] }

/-! ## Stage 5: `set_out1` and `range_proof` -/

/-- Modelled from the spec: `ring_ct.prove_range(amount, last_mask)`
(not under `src/`) samples the range-proof mask freely unless
`last_mask` is supplied, in which case that mask is used.  Only the
mask is modelled; the commitment/range-signature are elided (the
builder's own `assrt(C == mask·G + amount·H)` is a self-check of this
output). -/
def prove_range_mask (last_mask : Option Scalar) (rand : Scalar) : Scalar :=
  last_mask.getD rand

/-- `range_proof(idx, …)` (mask-sum bookkeeping): `last_mask` is
`sumpouts_alphas − sumout` exactly for the last output in Simple RCT;
the produced mask is accumulated into `sumout`. -/
def range_proof (s : BuilderState) (idx : Nat) (rand_mask : Scalar) :
    BuilderState × Scalar :=
  let is_last := idx + 1 = s.output_count
  let last_mask : Option Scalar :=
    if ¬ is_last ∨ ¬ s.use_simple_rct then none
    else some (s.sumpouts_alphas - s.sumout)
  let mask := prove_range_mask last_mask rand_mask
  ({ s with sumout := s.sumout + mask }, mask)

/-- The calls `range_proof(out_idx, …)` made by successive `set_out1`
requests, with `rands` the freely sampled masks offered at each index
(the one for the last output is discarded by `prove_range_mask`). -/
def run_range_proofs (s : BuilderState) (idx : Nat) :
    List Scalar → List Scalar × BuilderState
  | [] => ([], s)
  | r :: rs =>
    let p := range_proof s idx r
    let q := run_range_proofs p.1 (idx + 1) rs
    (p.2 :: q.1, q.2)

/-- Modelled from the spec: `BoolType` dump (`int_serialize`, not under
`src/`) — one byte, 0 or 1. -/
def dump_bool (b : Bool) : Bytes := [if b then 1 else 0]

/-- Canonical serialization of `TxDestinationEntry` (varint amount,
32-byte spend key, 32-byte view key, bool): the bytes `gen_hmac_tsxdest`
hashes; key blobs of the wrong size raise. -/
def dump_tx_dest_entry (d : TxDestEntry) : Option Bytes := do
  let sp ← dump_blob_fixed 32 d.addr.spend
  let vw ← dump_blob_fixed 32 d.addr.view
  pure (dump_uvarint d.amount ++ sp ++ vw ++ dump_bool d.is_subaddress)

/-- Canonical serialization of `TxOut{amount: 0, target:
TxoutToKey{key}}` as absorbed into the prefix hasher: varint amount,
variant code 0x2, 32-byte key. -/
def dump_tx_out (amount : Nat) (key : Bytes) : Option Bytes := do
  let k ← dump_blob_fixed 32 key
  pure (dump_uvarint amount ++ [0x2] ++ k)

/-- `set_out1(dst_entr, dst_entr_hmac)`.  The index/stage/amount/HMAC
checks, the hasher feeds and the money/mask bookkeeping are embedded.
`tx_out_key_enc` is the encoded stealth output key and `rand_mask` the
mask freely sampled inside `prove_range`; the additional-txkey point
arithmetic, the derivation/ECDH computations and the range signature
itself (crypto layer, outside `src/`) are elided — on this path they
cannot fail and do not touch the fields below except
`additional_tx_public_keys`, fed here as `additional_txkey_enc`. -/
def set_out1 (K : Bytes → Bytes) (s : BuilderState) (dst : TxDestEntry)
    (dst_entr_hmac : Bytes) (tx_out_key_enc additional_txkey_enc : Bytes)
    (rand_mask : Scalar) : Except TxError BuilderState :=
  if s.is_input_vins_state ∧ s.inp_idx + 1 ≠ (s.input_count : Int) then
    .error .invalidNumInputs
  else
    let s1 := { s with out_idx := s.out_idx + 1, is_input_vins_state := false }
    -- `if dst_entr.amount <= 0 and self.tx.version <= 1` (amounts are
    -- protobuf unsigned, so `<= 0` is `= 0`)
    if dst.amount = 0 ∧ s1.tx_version ≤ 1 then .error .wrongAmount
    else
      match dump_tx_dest_entry dst with
      | none => .error .serializeError
      | some dstSer =>
        if ¬ ct_equal dst_entr_hmac
            (gen_hmac_tsxdest K s1.key_hmac dstSer s1.out_idx.toNat) then
          .error .hmacInvalid
        else
          -- first output: absorb the vout container size
          let s2 := if s1.out_idx = (0 : Int)
            then { s1 with tx_prefix_absorbed :=
              s1.tx_prefix_absorbed ++ dump_uvarint s1.output_count }
            else s1
          let s3 := if s2.need_additional_txkeys
            then { s2 with additional_tx_public_keys :=
              s2.additional_tx_public_keys ++ [additional_txkey_enc] }
            else s2
          let s4 := { s3 with
            summary_outs_money := s3.summary_outs_money + (dst.amount : Int) }
          match dump_tx_out 0 tx_out_key_enc with
          | none => .error .serializeError
          | some txoutBytes =>
            let s5 := { s4 with
              tx_prefix_absorbed := s4.tx_prefix_absorbed ++ txoutBytes }
            .ok (range_proof s5 s5.out_idx.toNat rand_mask).1

/-! ## Stage 6: `all_out1_set` and its dispatcher -/

/-- Modelled from the spec: `tsx_helper.add_tx_pub_key_to_extra` (not
under `src/`) appends the TLV field `0x01 ‖ 32-byte tx pub key`. -/
def add_tx_pub_key_to_extra (extra pub_enc : Bytes) : Bytes :=
  extra ++ [0x1] ++ pub_enc

/-- Modelled from the spec: `tsx_helper.add_additional_tx_pub_keys_to_extra`
(not under `src/`) appends the TLV field `0x04 ‖ varint count ‖ keys`. -/
def add_additional_tx_pub_keys_to_extra (extra : Bytes) (pubs : List Bytes) : Bytes :=
  extra ++ [0x4] ++ dump_uvarint pubs.length ++ pubs.flatten

/-- The Simple-RCT mask-sum assertion of `all_out1_set`:
`assrt(sc_eq(sumout, sumpouts_alphas))`. -/
def all_out1_mask_check (s : BuilderState) : Bool :=
  !s.use_simple_rct || sc_eq s.sumout s.sumpouts_alphas

/-- The successful response of `all_out1_set` (`tx.extra` and the
transaction prefix hash). -/
structure AllOutResp where
  extra : Bytes
  tx_prefix_hash : Bytes
  deriving DecidableEq

/-- The `tx.extra` built by `all_out1_set`: tx pub key TLV, then the
additional-pub-keys TLV when `need_additional_txkeys`. -/
def all_out1_extra (encPt : Point → Bytes) (s : BuilderState) : Bytes :=
  let extra1 := add_tx_pub_key_to_extra s.tx_extra (encPt s.r_pub)
  if s.need_additional_txkeys
    then add_additional_tx_pub_keys_to_extra extra1 s.additional_tx_public_keys
    else extra1

/-- The transaction prefix hash finalized by `all_out1_set`: Keccak of
everything absorbed so far followed by the `extra` blob field (varint
length then bytes). -/
def all_out1_prefix_hash (K : Bytes → Bytes) (encPt : Point → Bytes)
    (s : BuilderState) : Bytes :=
  K (s.tx_prefix_absorbed ++ dump_uvarint (all_out1_extra encPt s).length ++
      all_out1_extra encPt s)

/-- `all_out1_set()`.  Checks in source order: output count; in Simple
RCT the mask-sum assertion; the fee equation
`fee == summary_inputs_money − summary_outs_money`; tx-pub-key TLVs
appended to `tx.extra`; `outputs ≤ inputs`; `extra` absorbed and the
prefix hash finalized (`K` of all absorbed bytes); finally the
multisig expected-prefix-hash comparison, whose failure sets the failed
state and raises the dedicated `TrezorTxPrefixHashNotMatchingError`.
The mutated state is returned alongside the outcome (Python mutates in
place before raising). -/
def all_out1_set (K : Bytes → Bytes) (encPt : Point → Bytes) (s : BuilderState) :
    BuilderState × Except TxError AllOutResp :=
  if s.out_idx + 1 ≠ (s.output_count : Int) then (s, .error .invalidOutNum)
  else if ¬ all_out1_mask_check s then (s, .error .maskSumMismatch)
  else if s.fee ≠ s.summary_inputs_money - s.summary_outs_money then
    (s, .error .feeInvalid)
  else
    let s1 := { s with tx_extra := all_out1_extra encPt s }
    if s1.summary_outs_money > s1.summary_inputs_money then
      (s1, .error .inputsLessThanOutputs)
    else
      let hash := all_out1_prefix_hash K encPt s
      let s2 := { s1 with tx_prefix_absorbed :=
        s1.tx_prefix_absorbed ++ dump_uvarint s1.tx_extra.length ++ s1.tx_extra }
      match s2.exp_tx_prefix_hash with
      | some e =>
        if e ≠ [] ∧ ¬ ct_equal e hash then
          ({ s2 with state_failed := true }, .error .prefixHashMismatch)
        else (s2, .ok ⟨s2.tx_extra, hash⟩)
      | none => (s2, .ok ⟨s2.tx_extra, hash⟩)

/-- A dispatcher response (`tsx_sign.py`): a stage response, or
`MoneroRespError` with its optional `status` field. -/
inductive Response where
  | allOutSet (r : AllOutResp)
  | respError (status : Option Nat) (e : TxError)
  deriving DecidableEq

/-- `TsxSigner.tsx_all_out1_set`: `TrezorTxPrefixHashNotMatchingError`
is caught separately and answered with `MoneroRespError(status=10, …)`;
every other exception is answered with `MoneroRespError(exc=…)` and no
status. -/
def tsx_all_out1_set (K : Bytes → Bytes) (encPt : Point → Bytes)
    (s : BuilderState) : BuilderState × Response :=
  match all_out1_set K encPt s with
  | (s', .ok r) => (s', .allOutSet r)
  | (s', .error .prefixHashMismatch) =>
    (s', .respError (some 10) .prefixHashMismatch)
  | (s', .error e) => (s', .respError none e)

/-! ## Stage 8: `sign_input` -/

/-- `sign_input(src_entr, vini, hmac_vini, pseudo_out, pseudo_out_hmac,
alpha)`.  `in_memory()` is `False`.  Index/consistency checks, the two
HMAC verifications under the permuted index and the `input_secrets`
lookup are embedded; the alpha AEAD-open, the private-key/commitment
asserts and the MLSAG computation (crypto layer, outside `src/`) are
elided — they do not modify the fields below. -/
def sign_input (K : Bytes → Bytes) (s : BuilderState) (src_vini_ser : Bytes)
    (hmac_vini : Bytes) (pseudo_out : Option Bytes) (pseudo_out_hmac : Bytes)
    (alpha_enc : Option Bytes) : Except TxError BuilderState :=
  let s1 := { s with inp_idx := s.inp_idx + 1 }
  if s1.inp_idx ≥ (s1.input_count : Int) then .error .invalidIns
  else if s1.use_simple_rct ∧ alpha_enc = none then .error .inconsistent1
  else if s1.use_simple_rct ∧ pseudo_out = none then .error .inconsistent2
  else if s1.inp_idx ≥ (1 : Int) ∧ ¬ s1.use_simple_rct then .error .inconsistent3
  else
    match s1.source_permutation[s1.inp_idx.toNat]? with
    | none => .error .indexError
    | some inv_idx =>
      if ¬ ct_equal (gen_hmac_vini K s1.key_hmac src_vini_ser inv_idx)
          hmac_vini then
        .error .hmacInvalid
      else if s1.use_simple_rct then
        -- Simple RCT offloaded path: verify the pseudo-out HMAC, then
        -- AEAD-open alpha (elided) and look up the input secret
        match pseudo_out with
        | none => .error .inconsistent2
        | some po =>
          if ¬ ct_equal
              (compute_hmac K (hmac_key_txin_comm K s1.key_hmac inv_idx) po)
              pseudo_out_hmac then
            .error .hmacInvalid
          else
            match s1.input_secrets[s1.inp_idx.toNat]? with
            | none => .error .indexError
            | some _ => .ok s1
      else
        match s1.input_secrets[s1.inp_idx.toNat]? with
        | none => .error .indexError
        | some _ => .ok s1

/-! ## Sample values (concrete instantiations for the theorems) -/

/-- The identity function standing in for Keccak-256 when a theorem is
instantiated on concrete bytes. -/
def idK : Bytes → Bytes := fun b => b

/-- A trivial point encoder for concrete instantiations. -/
def nilPt : Point → Bytes := fun _ => []

/-- A concrete builder state: 2 inputs, 2 outputs, fee 10, inputs 100,
outputs 90, balanced mask sums, both stages complete. -/
def bs0 : BuilderState where
  input_count := 2
  output_count := 2
  fee := 10
  mixin := 3
  multi_sig := false
  use_simple_rct := true
  need_additional_txkeys := false
  tx_version := 2
  unlock_time := 0
  inp_idx := 1
  out_idx := 1
  summary_inputs_money := 100
  summary_outs_money := 90
  sumout := 0
  sumpouts_alphas := 0
  key_hmac := [1]
  key_enc := [2]
  r := 1
  r_pub := .base
  source_permutation := [0, 1]
  input_secrets := [1, 2]
  additional_tx_public_keys := []
  exp_tx_prefix_hash := none
  tx_extra := []
  tx_prefix_absorbed := []
  premlsag_pseudo_outs := []
  is_input_vins_state := false
  state_failed := false

/-- A concrete TsxData: two inputs, one subaddress destination. -/
def td0 : TsxData where
  num_inputs := 2
  mixin := 3
  fee := 10
  unlock_time := 0
  is_multisig := false
  outputs := [⟨5, ⟨List.replicate 32 7, List.replicate 32 8⟩, true⟩]
  change_dts := none
  exp_tx_prefix_hash := []
  use_tx_keys := []

/-- The state `init_transaction` computes on `td0`. -/
def c4f : BuilderState :=
  ((init_transaction idK (fun _ => 1) 1 [] [] td0).toOption).getD bs0

/-- A concrete zero-amount destination entry. -/
def dst0 : TxDestEntry :=
  ⟨0, ⟨List.replicate 32 7, List.replicate 32 8⟩, false⟩

/-- A byte string whose leading varint is a non-minimal encoding of 0
(`0x80 0x00`), followed by an empty offsets container and a 32-byte key
image. -/
def c9bytes : Bytes := 128 :: 0 :: 0 :: List.replicate 32 0

/-! ## Serializer lemmas -/

theorem dump_uvarint_fuel_irrel (f : Nat) :
    ∀ g n, n ≤ f → n ≤ g → dump_uvarint_fuel f n = dump_uvarint_fuel g n := by
  induction f with
  | zero =>
    intro g n hf _
    interval_cases n
    cases g with
    | zero => rfl
    | succ h => simp [dump_uvarint_fuel]
  | succ f ih =>
    intro g n _ hg
    cases g with
    | zero =>
      interval_cases n
      simp [dump_uvarint_fuel]
    | succ h =>
      show (if n < 128 then [n] else (n % 128 + 128) :: dump_uvarint_fuel f (n / 128)) =
        (if n < 128 then [n] else (n % 128 + 128) :: dump_uvarint_fuel h (n / 128))
      split
      · rfl
      · rw [ih h (n / 128) (by omega) (by omega)]

/-- The recurrence satisfied by `dump_uvarint`: LEB128 as in the spec. -/
theorem dump_uvarint_eq (n : Nat) :
    dump_uvarint n =
      if n < 128 then [n] else (n % 128 + 128) :: dump_uvarint (n / 128) := by
  cases n with
  | zero => rfl
  | succ m =>
    show (if m + 1 < 128 then [m + 1]
      else ( (m + 1) % 128 + 128) :: dump_uvarint_fuel m ((m + 1) / 128)) = _
    split
    · rfl
    · rw [dump_uvarint_fuel_irrel m ((m + 1) / 128) ((m + 1) / 128)
        (by omega) (by omega)]
      rfl

theorem dump_uvarint_lt (n : Nat) : ∀ b ∈ dump_uvarint n, b < 256 := by
  induction n using Nat.strong_induction_on with
  | _ n ih =>
    rw [dump_uvarint_eq]
    split
    · intro b hb
      simp only [List.mem_singleton] at hb
      omega
    · intro b hb
      simp only [List.mem_cons] at hb
      rcases hb with h | h
      · omega
      · exact ih (n / 128) (Nat.div_lt_self (by omega) (by omega)) b h

/-- LEB128 round trip: decoding an encoded varint consumes exactly the
encoding and returns the encoded value. -/
theorem load_dump_uvarint (n : Nat) (rest : Bytes) :
    load_uvarint (dump_uvarint n ++ rest) = some (n, rest) := by
  induction n using Nat.strong_induction_on generalizing rest with
  | _ n ih =>
    rw [dump_uvarint_eq]
    split
    · simp only [List.cons_append, List.nil_append, load_uvarint]
      rw [if_pos (by omega)]
      congr 2
      omega
    · simp only [List.cons_append, load_uvarint]
      rw [if_neg (by omega)]
      simp only [List.append_eq]
      rw [ih (n / 128) (Nat.div_lt_self (by omega) (by omega)) rest]
      have h1 : (n % 128 + 128) % 256 = n % 128 + 128 :=
        Nat.mod_eq_of_lt (by omega)
      rw [h1, Nat.add_mod_right]
      dsimp only
      simp only [Option.some.injEq, Prod.mk.injEq]
      exact ⟨by omega, trivial⟩

theorem load_uvarints_dump (offs : List Nat) (rest : Bytes) :
    load_uvarints offs.length ((offs.map dump_uvarint).flatten ++ rest) =
      some (offs, rest) := by
  induction offs generalizing rest with
  | nil => rfl
  | cons o os ih =>
    simp only [List.map_cons, List.flatten_cons, List.append_assoc,
      List.length_cons, load_uvarints, load_dump_uvarint,
      Option.bind_eq_bind, Option.some_bind]
    rw [ih rest]
    rfl

theorem load_blob_fixed_append (k rest : Bytes) (h : k.length = 32) :
    load_blob_fixed 32 (k ++ rest) = some (k, rest) := by
  unfold load_blob_fixed
  rw [if_pos (by simp [List.length_append, h]), ← h,
    List.take_left, List.drop_left]

theorem load_dump_txin_to_key (v : TxinToKeyMsg) (db rest : Bytes)
    (hd : dump_txin_to_key v = some db) :
    load_txin_to_key (db ++ rest) = some (v, rest) := by
  unfold dump_txin_to_key dump_blob_fixed at hd
  by_cases h32 : v.k_image.length = 32
  · rw [if_pos h32] at hd
    simp only [Option.bind_eq_bind, Option.some_bind, Option.pure_def,
      Option.some.injEq] at hd
    subst hd
    unfold load_txin_to_key dump_uvarint_container
    simp only [List.append_assoc, Option.bind_eq_bind]
    rw [load_dump_uvarint, Option.some_bind, load_dump_uvarint, Option.some_bind,
      load_uvarints_dump, Option.some_bind, load_blob_fixed_append _ _ h32,
      Option.some_bind]
    rfl
  · rw [if_neg h32] at hd
    simp at hd

theorem ct_equal_eq (a b : Bytes) : ct_equal a b = true ↔ a = b := by
  simp [ct_equal]

theorem ct_equal_false (a b : Bytes) : ct_equal a b = false ↔ a ≠ b := by
  simp [ct_equal]

/-! ## The claims -/

/-- Characterization of the `range_proof` loop over the remaining
outputs `idx .. output_count − 1` in Simple RCT: every mask but the
last is the freely sampled one, the last is `sumpouts_alphas − sumout`
at that point, and the final state differs from the initial one only in
`sumout`, which lands exactly on `sumpouts_alphas`. -/
theorem run_range_proofs_spec (rands : List Scalar) :
    ∀ (s : BuilderState) (idx : Nat), s.use_simple_rct = true →
      idx + rands.length = s.output_count → rands ≠ [] →
      (run_range_proofs s idx rands).1 =
        rands.dropLast ++
          [s.sumpouts_alphas - s.sumout - rands.dropLast.sum] ∧
      (run_range_proofs s idx rands).2 =
        { s with sumout := s.sumpouts_alphas } := by
  induction rands with
  | nil => intro s idx _ _ hne; exact absurd rfl hne
  | cons r rs ih =>
    intro s idx hsimple hlen _
    by_cases hrs : rs = []
    · subst hrs
      have hlast : idx + 1 = s.output_count := by simpa using hlen
      simp only [run_range_proofs, range_proof, prove_range_mask]
      rw [if_neg (by simp [hlast, hsimple])]
      simp only [Option.getD_some]
      constructor
      · simp
      · have hc : s.sumout + (s.sumpouts_alphas - s.sumout) =
            s.sumpouts_alphas := by ring
        rw [hc]
    · have hnotlast : ¬ (idx + 1 = s.output_count) := by
        have : rs.length ≥ 1 := by
          cases rs with
          | nil => exact absurd rfl hrs
          | cons a l => simp
        simp only [List.length_cons] at hlen
        omega
      simp only [run_range_proofs, range_proof, prove_range_mask]
      rw [if_pos (Or.inl hnotlast)]
      simp only [Option.getD_none]
      obtain ⟨hm, hs⟩ := ih { s with sumout := s.sumout + r } (idx + 1)
        hsimple (by
          show idx + 1 + rs.length = s.output_count
          simp only [List.length_cons] at hlen
          omega) hrs
      rw [hm, hs]
      constructor
      · rw [List.dropLast_cons_of_ne_nil hrs]
        have hc : s.sumpouts_alphas - (s.sumout + r) - rs.dropLast.sum =
            s.sumpouts_alphas - s.sumout - (r :: rs.dropLast).sum := by
          simp only [List.sum_cons]
          ring
        simp [hc]
      · rfl

/-- C2: in Simple RCT, every output's range-proof mask except the last
is the freely sampled one; the last output's mask is
`sumpouts_alphas` minus the sum of the previously accumulated output
masks; and the mask-sum assertion of `all_out1_set` then holds — the
sum of all output masks equals the sum of all pseudo-out alphas as
scalars mod ℓ. -/
theorem c2_mask_sum (s : BuilderState) (rands : List Scalar)
    (hsimple : s.use_simple_rct = true)
    (hlen : rands.length = s.output_count)
    (hne : rands ≠ [])
    (hsum0 : s.sumout = 0) :
    (run_range_proofs s 0 rands).1.dropLast = rands.dropLast ∧
    (run_range_proofs s 0 rands).1 =
      rands.dropLast ++
        [s.sumpouts_alphas - ((run_range_proofs s 0 rands).1.dropLast).sum] ∧
    (run_range_proofs s 0 rands).2.sumout = s.sumpouts_alphas ∧
    all_out1_mask_check (run_range_proofs s 0 rands).2 = true := by
  obtain ⟨hm, hs⟩ := run_range_proofs_spec rands s 0 hsimple (by omega) hne
  have hd : (run_range_proofs s 0 rands).1.dropLast = rands.dropLast := by
    rw [hm, List.dropLast_concat]
  refine ⟨hd, ?_, ?_, ?_⟩
  · rw [hd, hm, hsum0, sub_zero]
  · rw [hs]
  · rw [hs]
    simp [all_out1_mask_check, hsimple, sc_eq]

/-- C2 (witness): two outputs with pseudo-out alphas summing to 5 and
free mask 3: the last mask is forced to 2 and the mask-sum check of
`all_out1_set` passes. -/
theorem c2_witness :
    (run_range_proofs { bs0 with sumpouts_alphas := 5 } 0 [3, 99]).2.sumout = 5 ∧
    all_out1_mask_check
      (run_range_proofs { bs0 with sumpouts_alphas := 5 } 0 [3, 99]).2 = true :=
  ⟨(c2_mask_sum { bs0 with sumpouts_alphas := 5 } [3, 99]
      (by decide) (by decide) (by decide) (by decide)).2.2.1,
   (c2_mask_sum { bs0 with sumpouts_alphas := 5 } [3, 99]
      (by decide) (by decide) (by decide) (by decide)).2.2.2⟩

/-- C3 (counterexample): the claim asserts that for EVERY tag in the
table — `cout` included — and every index `i` the subkey is
`keccak_2hash(parent ‖ tag ‖ varint(i))`; but `enc_key_cout` drops the
varint suffix whenever the index is absent or zero
(`dump_uvarint_b(idx) if idx else b''`), so at index 0 the hashed input
lacks the `varint(0) = 0x00` byte: instantiating Keccak as the identity
function exhibits the two values differing. -/
theorem c3_counterexample :
    enc_key_cout idK [] (some 0) ≠
      keccak_2hash idK ([] ++ ascii "cout" ++ dump_uvarint 0) := by
  decide

/-- C3 (amended): `key_hmac = keccak_2hash("hmac" ‖ key_master)` and
`key_enc = keccak_2hash("enc" ‖ key_master)`; for the tags `txin`,
`txin-comm`, `txdest`, `txout`, `txout-asig` (parent `key_hmac`) and
`txin-alpha` (parent `key_enc`) and every index the subkey is
`keccak_2hash(parent ‖ tag ‖ varint(index))`; for `cout` the varint is
appended only for a supplied nonzero index — with no index, or index 0,
the subkey is `keccak_2hash(key_enc ‖ "cout")`. -/
theorem c3_key_schedule (K : Bytes → Bytes)
    (digest rand_enc key_hmac key_enc : Bytes) (i : Nat) :
    (compute_sec_keys K digest rand_enc).key_hmac =
      keccak_2hash K (ascii "hmac" ++ (compute_sec_keys K digest rand_enc).key_master) ∧
    (compute_sec_keys K digest rand_enc).key_enc =
      keccak_2hash K (ascii "enc" ++ (compute_sec_keys K digest rand_enc).key_master) ∧
    hmac_key_txin K key_hmac i =
      keccak_2hash K (key_hmac ++ ascii "txin" ++ dump_uvarint i) ∧
    hmac_key_txin_comm K key_hmac i =
      keccak_2hash K (key_hmac ++ ascii "txin-comm" ++ dump_uvarint i) ∧
    hmac_key_txdst K key_hmac i =
      keccak_2hash K (key_hmac ++ ascii "txdest" ++ dump_uvarint i) ∧
    hmac_key_txout K key_hmac i =
      keccak_2hash K (key_hmac ++ ascii "txout" ++ dump_uvarint i) ∧
    hmac_key_txout_asig K key_hmac i =
      keccak_2hash K (key_hmac ++ ascii "txout-asig" ++ dump_uvarint i) ∧
    enc_key_txin_alpha K key_enc i =
      keccak_2hash K (key_enc ++ ascii "txin-alpha" ++ dump_uvarint i) ∧
    enc_key_cout K key_enc (some (i + 1)) =
      keccak_2hash K (key_enc ++ ascii "cout" ++ dump_uvarint (i + 1)) ∧
    enc_key_cout K key_enc none =
      keccak_2hash K (key_enc ++ ascii "cout") ∧
    enc_key_cout K key_enc (some 0) =
      keccak_2hash K (key_enc ++ ascii "cout") := by
  refine ⟨rfl, rfl, rfl, rfl, rfl, rfl, rfl, rfl, ?_, ?_, ?_⟩ <;>
    simp [enc_key_cout]

/-- C8: `_dump_variant` emits exactly one byte — the selected field's
declared variant code — followed by the field's serialization; a
`TxinToKey` vin is serialized under code 0x02 as varint amount, varint
offset count, the varint offsets, then the 32-byte key image. -/
theorem c8_variant_layout (v : TxInV) :
    (∀ body, dump_txinv_field v = some body →
      dump_TxInV v = some (txinv_variant_code v :: body)) ∧
    (∀ a offs ki, v = .txin_to_key ⟨a, offs, ki⟩ → ki.length = 32 →
      dump_TxInV v = some (0x2 :: (dump_uvarint a ++
        (dump_uvarint offs.length ++ (offs.map dump_uvarint).flatten) ++ ki))) := by
  constructor
  · intro body hb
    unfold dump_TxInV
    rw [hb]
    rfl
  · rintro a offs ki rfl h32
    unfold dump_TxInV dump_txinv_field dump_txin_to_key dump_blob_fixed
    dsimp only
    rw [if_pos h32]
    rfl

/-- C8 (witness): the layout on a concrete `TxinToKey` vin. -/
theorem c8_witness :
    dump_TxInV (.txin_to_key ⟨0, [1, 300], List.replicate 32 9⟩) =
      some (0x2 :: (dump_uvarint 0 ++
        (dump_uvarint ([1, 300] : List Nat).length ++
          (([1, 300] : List Nat).map dump_uvarint).flatten) ++
        List.replicate 32 9)) :=
  (c8_variant_layout (.txin_to_key ⟨0, [1, 300], List.replicate 32 9⟩)).2
    0 [1, 300] (List.replicate 32 9) rfl (by decide)

/-- C9 (counterexample): `serialize(deserialize(b)) = b` fails: the
varint decoder accepts the non-minimal encoding `0x80 0x00` of 0, so
`c9bytes` deserializes successfully as a `TxinToKey` yet re-serializes
to the one-byte-shorter canonical form. -/
theorem c9_counterexample :
    load_txin_to_key c9bytes =
      some (⟨0, [], List.replicate 32 0⟩, []) ∧
    dump_txin_to_key ⟨0, [], List.replicate 32 0⟩ ≠ some c9bytes := by
  exact ⟨by decide, by decide⟩

/-- C9 (amended): the serializer is a right inverse of the
deserializer — for every value of the embedded hashed message family
(`TxInV` and its fields), deserializing its serialization yields the
value back and consumes exactly its bytes; `serialize(deserialize(b)) = b`
therefore holds exactly on canonical byte strings (those in the image
of the serializer), while non-minimal varint encodings re-serialize
shorter. -/
theorem c9_roundtrip (v : TxInV) (db rest : Bytes)
    (hd : dump_TxInV v = some db) :
    load_TxInV (db ++ rest) = some (v, rest) := by
  cases v with
  | txin_gen h =>
    unfold dump_TxInV dump_txinv_field dump_txin_gen at hd
    dsimp only [txinv_variant_code] at hd
    simp only [Option.map_some', Option.some.injEq] at hd
    subst hd
    simp [load_TxInV, load_dump_uvarint]
  | txin_to_script =>
    unfold dump_TxInV dump_txinv_field at hd
    dsimp only [txinv_variant_code] at hd
    simp only [Option.map_some', Option.some.injEq] at hd
    subst hd
    simp [load_TxInV]
  | txin_to_scripthash =>
    unfold dump_TxInV dump_txinv_field at hd
    dsimp only [txinv_variant_code] at hd
    simp only [Option.map_some', Option.some.injEq] at hd
    subst hd
    simp [load_TxInV]
  | txin_to_key w =>
    unfold dump_TxInV dump_txinv_field at hd
    dsimp only [txinv_variant_code] at hd
    cases hb : dump_txin_to_key w with
    | none => rw [hb] at hd; simp at hd
    | some body =>
      rw [hb] at hd
      simp only [Option.map_some', Option.some.injEq] at hd
      subst hd
      simp [load_TxInV, load_dump_txin_to_key w body rest hb]

/-- C1: `all_out1_set` succeeds only when `out_idx + 1` equals the
declared number of destinations and the declared fee equals
`summary_inputs_money − summary_outs_money` (hence every completed
transaction satisfies `sum(inputs) = sum(outputs) + fee`); a differing
fee, or summed outputs exceeding summed inputs, make it raise an
error. -/
theorem c1_all_out1_balance (K : Bytes → Bytes) (encPt : Point → Bytes)
    (s : BuilderState) :
    (∀ r, (all_out1_set K encPt s).2 = .ok r →
      s.out_idx + 1 = (s.output_count : Int) ∧
      s.fee = s.summary_inputs_money - s.summary_outs_money ∧
      s.summary_inputs_money = s.summary_outs_money + s.fee) ∧
    (s.fee ≠ s.summary_inputs_money - s.summary_outs_money ∨
        s.summary_outs_money > s.summary_inputs_money →
      ∃ e, (all_out1_set K encPt s).2 = .error e) := by
  constructor
  · intro r hr
    simp only [all_out1_set] at hr
    split_ifs at hr with h1 h2 h3 h4
    any_goals simp at hr
    exact ⟨by omega, by omega, by omega⟩
  · intro hbad
    simp only [all_out1_set]
    split_ifs with h1 h2 h3 h4
    any_goals exact ⟨_, rfl⟩
    exact hbad.elim (fun hb => absurd hb (by omega))
      (fun hb => absurd hb (by omega))

/-- C1 (witness): `bs0` balances (100 = 90 + 10); raising its fee to 11
makes `all_out1_set` error. -/
theorem c1_witness :
    bs0.summary_inputs_money = bs0.summary_outs_money + bs0.fee ∧
    (∃ e, (all_out1_set idK nilPt { bs0 with fee := 11 }).2 = .error e) :=
  ⟨((c1_all_out1_balance idK nilPt bs0).1 ⟨[1], [1, 1]⟩ rfl).2.2,
   (c1_all_out1_balance idK nilPt { bs0 with fee := 11 }).2 (Or.inl (by decide))⟩

/-- `classify_subaddresses` counts exactly the standard and subaddress
destinations. -/
theorem classify_subaddresses_counts (l : List TxDestEntry) :
    (classify_subaddresses l).1 = l.countP (fun o => !o.is_subaddress) ∧
    (classify_subaddresses l).2.1 = l.countP (fun o => o.is_subaddress) := by
  induction l with
  | nil => exact ⟨rfl, rfl⟩
  | cons o rest ih =>
    by_cases h : o.is_subaddress
    · simp [classify_subaddresses, h, List.countP_cons, ih.1, ih.2]
    · simp [classify_subaddresses, h, List.countP_cons, ih.1, ih.2]

/-- With no subaddress destination, no single-destination subaddress is
recorded. -/
theorem classify_single_none (l : List TxDestEntry)
    (h : l.countP (fun o => o.is_subaddress) = 0) :
    (classify_subaddresses l).2.2 = none := by
  induction l with
  | nil => rfl
  | cons o rest ih =>
    simp only [List.countP_cons] at h
    by_cases ho : o.is_subaddress
    · rw [if_pos (by simpa using ho)] at h
      omega
    · rw [if_neg (by simpa using ho), add_zero] at h
      simp only [classify_subaddresses, ho, Bool.false_eq_true, if_false]
      exact ih h

/-- With exactly one subaddress destination, the recorded single
destination address is that destination's. -/
theorem classify_single_unique (l : List TxDestEntry) (e : TxDestEntry) :
    e ∈ l → e.is_subaddress = true →
    l.countP (fun o => o.is_subaddress) = 1 →
    (classify_subaddresses l).2.2 = some e.addr := by
  induction l with
  | nil => intro h; cases h
  | cons o rest ih =>
    intro hmem hsub hcount
    simp only [List.countP_cons] at hcount
    rcases List.mem_cons.mp hmem with heq | hmem'
    · subst heq
      have hrest : rest.countP (fun o => o.is_subaddress) = 0 := by
        rw [if_pos (by simpa using hsub)] at hcount
        omega
      simp [classify_subaddresses, hsub, classify_single_none rest hrest]
    · have hpos : 0 < rest.countP (fun o => o.is_subaddress) :=
        List.countP_pos_iff.mpr ⟨e, hmem', by simp [hsub]⟩
      by_cases ho : o.is_subaddress
      · rw [if_pos (by simpa using ho)] at hcount
        omega
      · rw [if_neg (by simpa using ho), add_zero] at hcount
        simp only [classify_subaddresses, ho, Bool.false_eq_true, if_false]
        exact ih hmem' hsub hcount

/-- C4: after a successful `init_transaction` on any TsxData:
`use_simple_rct` iff more than one input; `need_additional_txkeys` iff
there is a subaddress destination and (a standard destination or a
second subaddress one); with exactly one subaddress destination and no
standard ones the transaction public key is `r` times that
destination's spend public key, otherwise `r` times the base point. -/
theorem c4_init_flags (K : Bytes → Bytes) (decInt : Bytes → Scalar)
    (r0 : Scalar) (tsx_ser rand_enc : Bytes) (td : TsxData) (f : BuilderState)
    (h : init_transaction K decInt r0 tsx_ser rand_enc td = .ok f) :
    (f.use_simple_rct = true ↔ 1 < td.num_inputs) ∧
    (f.need_additional_txkeys = true ↔
      (0 < td.outputs.countP (fun o => o.is_subaddress) ∧
        (0 < td.outputs.countP (fun o => !o.is_subaddress) ∨
          1 < td.outputs.countP (fun o => o.is_subaddress)))) ∧
    (∀ d ∈ td.outputs, d.is_subaddress = true →
      td.outputs.countP (fun o => !o.is_subaddress) = 0 →
      td.outputs.countP (fun o => o.is_subaddress) = 1 →
      f.r_pub = Point.smul f.r (Point.decodePt d.addr.spend)) ∧
    (¬ (td.outputs.countP (fun o => !o.is_subaddress) = 0 ∧
        td.outputs.countP (fun o => o.is_subaddress) = 1) →
      f.r_pub = Point.smul f.r Point.base) := by
  obtain ⟨hstd, hsub⟩ := classify_subaddresses_counts td.outputs
  unfold init_transaction at h
  cases hc : check_change td.outputs td.change_dts with
  | error e => rw [hc] at h; exact absurd h (by simp)
  | ok u =>
    rw [hc] at h
    simp only [Except.ok.injEq] at h
    subst h
    refine ⟨by simp, ?_, ?_, ?_⟩
    · simp only [decide_eq_true_eq]
      rw [hstd, hsub]
    · intro d hd hdsub h0 h1
      have hcond : (classify_subaddresses td.outputs).1 = 0 ∧
          (classify_subaddresses td.outputs).2.1 = 1 := by
        rw [hstd, hsub]; exact ⟨h0, h1⟩
      simp only [if_pos hcond,
        classify_single_unique td.outputs d hd hdsub h1]
    · intro hnot
      have hcond : ¬ ((classify_subaddresses td.outputs).1 = 0 ∧
          (classify_subaddresses td.outputs).2.1 = 1) := by
        rw [hstd, hsub]; exact hnot
      simp only [if_neg hcond]

/-- C4 (witness): on `td0` (two inputs, one subaddress destination) the
flags computed by `init_transaction` match. -/
theorem c4_witness :
    c4f.use_simple_rct = true ∧
    c4f.need_additional_txkeys = false ∧
    c4f.r_pub = Point.smul c4f.r (Point.decodePt (List.replicate 32 7)) :=
  have h := c4_init_flags idK (fun _ => 1) 1 [] [] td0 c4f rfl
  ⟨h.1.mpr (by decide),
   by
     cases hb : c4f.need_additional_txkeys
     · rfl
     · exact absurd (h.2.1.mp hb) (by decide),
   h.2.2.1 ⟨5, ⟨List.replicate 32 7, List.replicate 32 8⟩, true⟩
     (by decide) rfl (by decide) (by decide)⟩

/-- C7: when all earlier checks pass, a supplied non-empty
`exp_tx_prefix_hash` differing from the computed prefix hash makes
`all_out1_set` fail with the dedicated prefix-hash-mismatch error and
the failed state set, and the dispatcher answers
`RespError(status = 10)` — unlike every other error, which is answered
without a status. -/
theorem c7_prefix_hash_mismatch (K : Bytes → Bytes) (encPt : Point → Bytes)
    (s : BuilderState) (e : Bytes)
    (hout : s.out_idx + 1 = (s.output_count : Int))
    (hmask : all_out1_mask_check s = true)
    (hfee : s.fee = s.summary_inputs_money - s.summary_outs_money)
    (hmoney : ¬ s.summary_outs_money > s.summary_inputs_money)
    (hexp : s.exp_tx_prefix_hash = some e)
    (hne : e ≠ [])
    (hdiff : ct_equal e (all_out1_prefix_hash K encPt s) = false) :
    (all_out1_set K encPt s).2 = .error .prefixHashMismatch ∧
    (all_out1_set K encPt s).1.state_failed = true ∧
    (tsx_all_out1_set K encPt s).2 = .respError (some 10) .prefixHashMismatch ∧
    (∀ s2 err, err ≠ TxError.prefixHashMismatch →
      (all_out1_set K encPt s2).2 = .error err →
      (tsx_all_out1_set K encPt s2).2 = .respError none err) := by
  have hmain : (all_out1_set K encPt s).2 = .error .prefixHashMismatch ∧
      (all_out1_set K encPt s).1.state_failed = true := by
    simp only [all_out1_set]
    rw [if_neg (by omega), if_neg (by simp [hmask]), if_neg (by omega),
      if_neg (by simpa using hmoney)]
    simp only [hexp]
    rw [if_pos ⟨hne, by simp [hdiff]⟩]
    exact ⟨rfl, rfl⟩
  refine ⟨hmain.1, hmain.2, ?_, ?_⟩
  · unfold tsx_all_out1_set
    rcases hres : all_out1_set K encPt s with ⟨s', r⟩
    have : r = .error .prefixHashMismatch := by
      have := hmain.1
      rw [hres] at this
      exact this
    subst this
    rfl
  · intro s2 err hne2 herr
    unfold tsx_all_out1_set
    rcases hres : all_out1_set K encPt s2 with ⟨s', r⟩
    rw [hres] at herr
    have : r = .error err := herr
    subst this
    cases err <;> first
      | exact absurd rfl hne2
      | rfl

/-- C7 (witness): a concrete mismatching expected prefix hash yields
the status-10 error response. -/
theorem c7_witness :
    (tsx_all_out1_set idK nilPt { bs0 with exp_tx_prefix_hash := some [99] }).2 =
      .respError (some 10) .prefixHashMismatch :=
  (c7_prefix_hash_mismatch idK nilPt { bs0 with exp_tx_prefix_hash := some [99] }
    [99] (by decide) (by decide) (by decide) (by decide) rfl (by decide)
    (by decide)).2.2.1

/-- C5: within each repeated input stage (SetInput, InputVinI,
SignInput), every accepted request increments `inp_idx` by exactly one
— so indices increase monotonically — and leaves `out_idx` untouched;
the incremented index never exceeds the declared input count; and a
request arriving after the declared number of inputs has been processed
fails with an error instead of processing an extra entry. -/
theorem c5_index_monotonicity (K : Bytes → Bytes) (s : BuilderState)
    (ol ro am : Nat) (xi al : Scalar) (ser : Bytes) (vini : TxInV)
    (hm po poh poh2 : Bytes) (po2 alpha2 : Option Bytes) :
    (∀ s', set_input s ol ro am xi al = .ok s' →
      s'.inp_idx = s.inp_idx + 1 ∧ s'.inp_idx < (s.input_count : Int) ∧
      s'.out_idx = s.out_idx) ∧
    (s.inp_idx + 1 ≥ (s.input_count : Int) →
      ∃ e, set_input s ol ro am xi al = .error e) ∧
    (∀ s', input_vini K s ser vini hm po poh = .ok s' →
      s'.inp_idx = s.inp_idx + 1 ∧
      (s.source_permutation.length = s.input_count →
        s'.inp_idx < (s.input_count : Int)) ∧
      s'.out_idx = s.out_idx) ∧
    (s.source_permutation.length = s.input_count →
      s.inp_idx + 1 ≥ (s.input_count : Int) →
      ∃ e, input_vini K s ser vini hm po poh = .error e) ∧
    (∀ s', sign_input K s ser hm po2 poh2 alpha2 = .ok s' →
      s'.inp_idx = s.inp_idx + 1 ∧ s'.inp_idx < (s.input_count : Int) ∧
      s'.out_idx = s.out_idx) ∧
    (s.inp_idx + 1 ≥ (s.input_count : Int) →
      ∃ e, sign_input K s ser hm po2 poh2 alpha2 = .error e) := by
  refine ⟨?_, ?_, ?_, ?_, ?_, ?_⟩
  · intro s' hs'
    simp only [set_input] at hs'
    split_ifs at hs' with ha hb hc
    · simp only [Except.ok.injEq] at hs'
      subst hs'
      refine ⟨rfl, ?_, rfl⟩
      show s.inp_idx + 1 < (s.input_count : Int)
      omega
    · simp only [Except.ok.injEq] at hs'
      subst hs'
      refine ⟨rfl, ?_, rfl⟩
      show s.inp_idx + 1 < (s.input_count : Int)
      omega
  · intro hge
    simp only [set_input]
    rw [if_pos (by show s.inp_idx + 1 ≥ (s.input_count : Int); omega)]
    exact ⟨_, rfl⟩
  · intro s' hs'
    simp only [input_vini] at hs'
    split at hs'
    next h1 => exact absurd hs' (by simp)
    next h1 =>
      split at hs'
      next heq => exact absurd hs' (by simp)
      next p heq =>
        obtain ⟨hlt, -⟩ := List.getElem?_eq_some.mp heq
        split at hs'
        next => exact absurd hs' (by simp)
        next =>
          split at hs'
          next => exact absurd hs' (by simp)
          next vb hdvb =>
            split at hs'
            next hns =>
              simp only [Except.ok.injEq] at hs'
              subst hs'
              exact ⟨rfl, fun hlen => by
                show s.inp_idx + 1 < (s.input_count : Int); omega, rfl⟩
            next hns =>
              split at hs'
              next heq2 => exact absurd hs' (by simp)
              next p2 heq2 =>
                split at hs'
                next => exact absurd hs' (by simp)
                next =>
                  simp only [Except.ok.injEq] at hs'
                  subst hs'
                  exact ⟨rfl, fun hlen => by
                    show s.inp_idx + 1 < (s.input_count : Int); omega, rfl⟩
  · intro hlen hge
    simp only [input_vini]
    by_cases h1 : s.inp_idx ≥ (s.input_count : Int)
    · rw [if_pos h1]
      exact ⟨_, rfl⟩
    · rw [if_neg h1]
      have hnone : s.source_permutation[(s.inp_idx + 1).toNat]? = none :=
        List.getElem?_eq_none (by omega)
      split
      next => exact ⟨_, rfl⟩
      next p heq => rw [hnone] at heq; cases heq
  · intro s' hs'
    simp only [sign_input] at hs'
    split at hs'
    next h1 => exact absurd hs' (by simp)
    next h1 =>
      split at hs'
      next => exact absurd hs' (by simp)
      next =>
        split at hs'
        next => exact absurd hs' (by simp)
        next =>
          split at hs'
          next => exact absurd hs' (by simp)
          next =>
            split at hs'
            next => exact absurd hs' (by simp)
            next inv heq =>
              split at hs'
              next => exact absurd hs' (by simp)
              next =>
                split at hs'
                next hsrct =>
                  split at hs'
                  next => exact absurd hs' (by simp)
                  next po3 hpo =>
                    split at hs'
                    next => exact absurd hs' (by simp)
                    next =>
                      split at hs'
                      next => exact absurd hs' (by simp)
                      next x hx =>
                        simp only [Except.ok.injEq] at hs'
                        subst hs'
                        refine ⟨rfl, ?_, rfl⟩
                        show s.inp_idx + 1 < (s.input_count : Int)
                        omega
                next hsrct =>
                  split at hs'
                  next => exact absurd hs' (by simp)
                  next x hx =>
                    simp only [Except.ok.injEq] at hs'
                    subst hs'
                    refine ⟨rfl, ?_, rfl⟩
                    show s.inp_idx + 1 < (s.input_count : Int)
                    omega
  · intro hge
    simp only [sign_input]
    rw [if_pos (by show s.inp_idx + 1 ≥ (s.input_count : Int); omega)]
    exact ⟨_, rfl⟩

/-- C5 (witness): on `bs0` both inputs are already processed
(`inp_idx = 1`, `input_count = 2`); a further request at each of the
three stages fails. -/
theorem c5_witness :
    (∃ e, set_input bs0 3 0 7 1 2 = .error e) ∧
    (∃ e, input_vini idK bs0 [5] .txin_to_script [9] [7] [8] = .error e) ∧
    (∃ e, sign_input idK bs0 [5] [9] (some [7]) [8] (some [6]) = .error e) :=
  ⟨(c5_index_monotonicity idK bs0 3 0 7 1 2 [5] .txin_to_script
      [9] [7] [8] [8] (some [7]) (some [6])).2.1 (by decide),
   (c5_index_monotonicity idK bs0 3 0 7 1 2 [5] .txin_to_script
      [9] [7] [8] [8] (some [7]) (some [6])).2.2.2.1 (by decide) (by decide),
   (c5_index_monotonicity idK bs0 3 0 7 1 2 [5] .txin_to_script
      [9] [7] [8] [8] (some [7]) (some [6])).2.2.2.2.2 (by decide)⟩

/-- C6: a successful `input_vini` requires the presented vin HMAC to
equal the one recomputed under the `txin` subkey for the
pre-permutation index `source_permutation[inp_idx]`, and in Simple RCT
the presented pseudo-out HMAC to equal the one recomputed under the
`txin-comm` subkey for that same permuted index; only then is the
pseudo-out appended to the PreMlsagHasher feed, and either mismatch
raises an error. -/
theorem c6_input_vini_hmacs (K : Bytes → Bytes) (s : BuilderState)
    (ser : Bytes) (vini : TxInV) (hm po poh : Bytes) :
    (∀ s', input_vini K s ser vini hm po poh = .ok s' →
      ∃ p, s.source_permutation[(s.inp_idx + 1).toNat]? = some p ∧
        hm = gen_hmac_vini K s.key_hmac ser p ∧
        (s.use_simple_rct = true →
          poh = compute_hmac K (hmac_key_txin_comm K s.key_hmac p) po ∧
          s'.premlsag_pseudo_outs = s.premlsag_pseudo_outs ++ [po]) ∧
        (s.use_simple_rct = false →
          s'.premlsag_pseudo_outs = s.premlsag_pseudo_outs)) ∧
    (∀ p, ¬ s.inp_idx ≥ (s.input_count : Int) →
      s.source_permutation[(s.inp_idx + 1).toNat]? = some p →
      hm ≠ gen_hmac_vini K s.key_hmac ser p →
      input_vini K s ser vini hm po poh = .error .hmacInvalid) ∧
    (∀ p db, ¬ s.inp_idx ≥ (s.input_count : Int) →
      s.source_permutation[(s.inp_idx + 1).toNat]? = some p →
      hm = gen_hmac_vini K s.key_hmac ser p →
      dump_TxInV vini = some db →
      s.use_simple_rct = true →
      poh ≠ compute_hmac K (hmac_key_txin_comm K s.key_hmac p) po →
      input_vini K s ser vini hm po poh = .error .hmacPseudoOutInvalid) := by
  refine ⟨?_, ?_, ?_⟩
  · intro s' hs'
    simp only [input_vini] at hs'
    by_cases h1 : s.inp_idx ≥ (s.input_count : Int)
    · rw [if_pos h1] at hs'
      exact absurd hs' (by simp)
    · rw [if_neg h1] at hs'
      split at hs'
      next heq => exact absurd hs' (by simp)
      next p heq =>
        refine ⟨p, heq, ?_⟩
        split at hs'
        next hct => exact absurd hs' (by simp)
        next hct =>
          have hm_eq : hm = gen_hmac_vini K s.key_hmac ser p :=
            ((ct_equal_eq _ _).mp (not_not.mp hct)).symm
          refine ⟨hm_eq, ?_⟩
          split at hs'
          next hdvn => exact absurd hs' (by simp)
          next vb hdvb =>
            split at hs'
            next hns =>
              simp only [Except.ok.injEq] at hs'
              subst hs'
              exact ⟨fun htrue => absurd htrue hns, fun _ => rfl⟩
            next hns =>
              have hsimple : s.use_simple_rct = true := not_not.mp hns
              split at hs'
              next heq2 => exact absurd hs' (by simp)
              next p2 heq2 =>
                have hp2p : p2 = p := (Option.some.inj heq2).symm
                subst hp2p
                split at hs'
                next hct2 => exact absurd hs' (by simp)
                next hct2 =>
                  have hpoh := (ct_equal_eq _ _).mp (not_not.mp hct2)
                  simp only [Except.ok.injEq] at hs'
                  subst hs'
                  exact ⟨fun _ => ⟨hpoh, rfl⟩,
                    fun hfalse => absurd hfalse (by simp [hsimple])⟩
  · intro p h1 hp hne
    simp only [input_vini]
    rw [if_neg h1]
    split
    next heq => rw [hp] at heq; cases heq
    next p' heq =>
      have hpp : p' = p := by rw [hp] at heq; exact (Option.some.inj heq).symm
      subst hpp
      rw [if_pos (fun hct => hne ((ct_equal_eq _ _).mp hct).symm)]
  · intro p db h1 hp hmeq hdv hsimple hne
    simp only [input_vini]
    rw [if_neg h1]
    split
    next heq => rw [hp] at heq; cases heq
    next p' heq =>
      have hpp : p' = p := by rw [hp] at heq; exact (Option.some.inj heq).symm
      subst hpp
      rw [if_neg (not_not_intro ((ct_equal_eq _ _).mpr hmeq.symm))]
      split
      next hdvn => rw [hdv] at hdvn; cases hdvn
      next vb hdvb =>
        rw [if_neg (not_not_intro hsimple)]
        split
        next heq2 => cases heq2
        next p2 heq2 =>
          have hpp2 : p2 = p' := (Option.some.inj heq2).symm
          subst hpp2
          rw [if_pos (fun hct => hne ((ct_equal_eq _ _).mp hct))]

/-- C6 (witness): a wrong vin HMAC on a concrete state raises the HMAC
error. -/
theorem c6_witness :
    input_vini idK { bs0 with inp_idx := -1 } [5] .txin_to_script [9] [7] [8] =
      .error .hmacInvalid :=
  (c6_input_vini_hmacs idK { bs0 with inp_idx := -1 } [5] .txin_to_script
    [9] [7] [8]).2.1 0 (by decide) (by decide) (by decide)

/-- C10: the `Destination with wrong amount` branch of `set_out1`
fires only when the destination amount is non-positive and
`tx.version ≤ 1`; `init_transaction` unconditionally sets
`tx.version = 2`, so the branch is unreachable and a zero-amount
destination entry with a valid HMAC is accepted. -/
theorem c10_zero_amount (K : Bytes → Bytes) (s : BuilderState)
    (dst : TxDestEntry) (dhmac tko atk : Bytes) (rm : Scalar) :
    (s.tx_version = 2 →
      set_out1 K s dst dhmac tko atk rm ≠ .error .wrongAmount) ∧
    (∀ decInt r0 tsx_ser rand_enc td f,
      init_transaction K decInt r0 tsx_ser rand_enc td = .ok f →
      f.tx_version = 2) ∧
    (¬ (s.is_input_vins_state ∧ s.inp_idx + 1 ≠ (s.input_count : Int)) →
      dst.amount = 0 → s.tx_version ≤ 1 →
      set_out1 K s dst dhmac tko atk rm = .error .wrongAmount) ∧
    (∀ dstSer, s.tx_version = 2 →
      ¬ (s.is_input_vins_state ∧ s.inp_idx + 1 ≠ (s.input_count : Int)) →
      dump_tx_dest_entry dst = some dstSer →
      dhmac = gen_hmac_tsxdest K s.key_hmac dstSer (s.out_idx + 1).toNat →
      tko.length = 32 →
      ∃ s', set_out1 K s dst dhmac tko atk rm = .ok s') := by
  refine ⟨?_, ?_, ?_, ?_⟩
  · intro hv hcontra
    simp only [set_out1] at hcontra
    split at hcontra
    next => simp at hcontra
    next =>
      split at hcontra
      next hav => exact absurd hav.2 (by omega)
      next hav =>
        split at hcontra
        next => simp at hcontra
        next dstSer hds =>
          split at hcontra
          next => simp at hcontra
          next =>
            split at hcontra
            next => simp at hcontra
            next tob htob => simp at hcontra
  · intro decInt r0 tsx_ser rand_enc td f h
    unfold init_transaction at h
    cases hc : check_change td.outputs td.change_dts with
    | error e => rw [hc] at h; exact absurd h (by simp)
    | ok u =>
      rw [hc] at h
      simp only [Except.ok.injEq] at h
      subst h
      rfl
  · intro hstage ham hver
    simp only [set_out1]
    rw [if_neg hstage, if_pos ⟨ham, hver⟩]
  · intro dstSer hv hstage hdump hhm h32
    simp only [set_out1]
    rw [if_neg hstage,
      if_neg (by rintro ⟨-, hle⟩; omega)]
    split
    next heq => rw [hdump] at heq; cases heq
    next dstSer2 heq =>
      have : dstSer2 = dstSer := by
        rw [hdump] at heq
        exact (Option.some.inj heq).symm
      subst this
      rw [if_neg (not_not_intro ((ct_equal_eq _ _).mpr hhm))]
      have hto : dump_tx_out 0 tko = some (dump_uvarint 0 ++ [0x2] ++ tko) := by
        unfold dump_tx_out dump_blob_fixed
        rw [if_pos h32]
        rfl
      split
      next heq2 => rw [hto] at heq2; cases heq2
      next tob heq2 => exact ⟨_, rfl⟩

/-- C10 (witness): a concrete zero-amount destination entry with a
valid HMAC is accepted by `set_out1` at version 2. -/
theorem c10_witness :
    ∃ s', set_out1 idK { bs0 with out_idx := -1 } dst0
      (gen_hmac_tsxdest idK bs0.key_hmac
        (dump_uvarint 0 ++ List.replicate 32 7 ++ List.replicate 32 8 ++ [0]) 0)
      (List.replicate 32 3) [] 0 = .ok s' :=
  (c10_zero_amount idK { bs0 with out_idx := -1 } dst0
      (gen_hmac_tsxdest idK bs0.key_hmac
        (dump_uvarint 0 ++ List.replicate 32 7 ++ List.replicate 32 8 ++ [0]) 0)
      (List.replicate 32 3) [] 0).2.2.2
    (dump_uvarint 0 ++ List.replicate 32 7 ++ List.replicate 32 8 ++ [0])
    (by decide) (by decide) (by decide) rfl (by decide)

/-- C9 (witness): round trip on a concrete `TxinToKey` vin. -/
theorem c9_witness :
    load_TxInV
        ((0x2 :: (dump_uvarint 7 ++
          (dump_uvarint ([3, 4] : List Nat).length ++
            (([3, 4] : List Nat).map dump_uvarint).flatten) ++
          List.replicate 32 5)) ++ []) =
      some (.txin_to_key ⟨7, [3, 4], List.replicate 32 5⟩, []) :=
  c9_roundtrip (.txin_to_key ⟨7, [3, 4], List.replicate 32 5⟩) _ [] (by decide)

end TrezorXmr
